import Mathlib

set_option maxRecDepth 8192
set_option linter.unusedVariables false

/-!
Shallow embedding of tkawachi/sslreminder (sslreminder.go).

The program's own functions (GetExpiration, GetExpirationMap, check,
mailBody, remind, readConfig, readSendgridConfig, envMandatory,
envOptional, and main's configuration phase) are translated directly
from the Go source.  Go standard-library collaborators (time.Time,
strconv.ParseInt, strings.Split, os.Getenv, crypto/tls dialing, the
SendGrid client) are modelled explicitly: an instant is a count of
seconds in UTC, date conversions follow the proleptic Gregorian
calendar implemented by Go's time package, TLS dialing is an oracle
parameter, and the SendGrid send is represented by the mail value the
program hands to the client.
-/

/-! ## Model of Go `time.Time` (UTC)

An instant is a signed count of seconds.  Day 0 of the day count
(`t / 86400`) is 0000-01-01 of the proleptic Gregorian calendar.  The
Gregorian calendar is periodic with period 400 years = 146097 days, so
the conversions between day counts and civil dates are built era-wise
on that period: the leap-year rule and the year/month lengths are
defined on the year-of-era (0..399), which determines them for every
year because the rule `y % 4 == 0 && (y % 100 != 0 || y % 400 == 0)`
only depends on `y` modulo 400. -/

/-- Leap-year rule on a year-of-era (Go: `isLeap(year)`); 400-periodic,
so evaluating it at `year mod 400` is the rule for `year`. -/
def isLeapN (y : Nat) : Bool := y % 4 == 0 && (y % 100 != 0 || y % 400 == 0)

/-- Number of days in year-of-era `y`. -/
def yearDays (y : Nat) : Nat := if isLeapN y then 366 else 365

/-- Days from the start of an era to the start of year-of-era `y`. -/
def yearStart : Nat → Nat
  | 0 => 0
  | y + 1 => yearStart y + yearDays y

/-- Length of month `m` (1..12) in days; 0 outside that range. -/
def monthLen (leap : Bool) : Nat → Nat
  | 1 => 31
  | 2 => if leap then 29 else 28
  | 3 => 31
  | 4 => 30
  | 5 => 31
  | 6 => 30
  | 7 => 31
  | 8 => 31
  | 9 => 30
  | 10 => 31
  | 11 => 30
  | 12 => 31
  | _ => 0

/-- Days from the start of the year to the start of month `m`. -/
def monthStart (leap : Bool) : Nat → Nat
  | 0 => 0
  | m + 1 => monthStart leap m + monthLen leap m

/-- Locate the year-of-era containing day-of-era `doe`, starting the
scan at year `yoe`; returns the year and the day-of-year.  The fuel
argument (400 at the call site) bounds the scan. -/
def findYear : Nat → Nat → Nat → Nat × Nat
  | 0, yoe, doe => (yoe, doe)
  | fuel + 1, yoe, doe =>
    if doe < yearDays yoe then (yoe, doe)
    else findYear fuel (yoe + 1) (doe - yearDays yoe)

/-- Locate the month containing day-of-year `doy`, starting the scan at
month `m`; returns the month and the day-of-month (0-based). -/
def findMonth (leap : Bool) : Nat → Nat → Nat → Nat × Nat
  | 0, m, doy => (m, doy)
  | fuel + 1, m, doy =>
    if doy < monthLen leap m then (m, doy)
    else findMonth leap fuel (m + 1) (doy - monthLen leap m)

/-- Civil date (year, month, day) of day count `z` (Go: `Time.Date`). -/
def civilFromDays (z : Int) : Int × Nat × Nat :=
  let era := z / 146097
  let doe := (z - 146097 * era).toNat
  let yd := findYear 400 0 doe
  let md := findMonth (isLeapN yd.1) 12 1 yd.2
  (400 * era + yd.1, md.1, md.2 + 1)

/-- Day count of a civil date (Go: the day computation inside
`time.Date`).  The month is first normalised into 1..12 shifting the
year, and the day enters linearly, exactly as Go's `Date` normalises
its arguments. -/
def daysFromCivil (y m d : Int) : Int :=
  let ym := 12 * y + (m - 1)
  let y2 := ym / 12
  let m2 := (ym - 12 * y2).toNat + 1
  let era := y2 / 400
  let yoe := (y2 - 400 * era).toNat
  146097 * era + ((yearStart yoe + monthStart (isLeapN yoe) m2 : Nat) : Int) + (d - 1)

/-- Model of Go `time.Date(year, month, day, hour, minute, sec, 0, UTC)`. -/
def Date (year month day hour minute sec : Int) : Int :=
  daysFromCivil year month day * 86400 + (hour * 3600 + minute * 60 + sec)

/-- Model of Go `Time.AddDate(years, months, days)`: read the civil
date, add the offsets field-wise, and rebuild the instant keeping the
clock time within the day. -/
def AddDate (t : Int) (years months days : Int) : Int :=
  let z := t / 86400
  let c := civilFromDays z
  daysFromCivil (c.1 + years) ((c.2.1 : Int) + months) ((c.2.2 : Int) + days) * 86400
    + (t - 86400 * z)

/-- Model of Go `Time.Before`: strict comparison of instants. -/
def Before (a b : Int) : Bool := a < b

/-- Civil date of an instant. -/
def dateOf (t : Int) : Int × Nat × Nat := civilFromDays (t / 86400)

/-- Day count of an instant. -/
def dayNumberOf (t : Int) : Int := t / 86400

/-- Second within the day of an instant. -/
def secondOfDay (t : Int) : Int := t % 86400

theorem yearStart_mono {a b : Nat} (h : a ≤ b) : yearStart a ≤ yearStart b := by
  induction h with
  | refl => exact Nat.le_refl _
  | step _ ih => simp only [yearStart]; omega

theorem monthStart_mono (leap : Bool) {a b : Nat} (h : a ≤ b) :
    monthStart leap a ≤ monthStart leap b := by
  induction h with
  | refl => exact Nat.le_refl _
  | step _ ih => simp only [monthStart]; omega

theorem findYear_spec (fuel : Nat) : ∀ yoe doe : Nat,
    yearStart yoe + doe < yearStart (yoe + fuel) →
    yearStart (findYear fuel yoe doe).1 + (findYear fuel yoe doe).2 = yearStart yoe + doe ∧
    (findYear fuel yoe doe).2 < yearDays (findYear fuel yoe doe).1 ∧
    yoe ≤ (findYear fuel yoe doe).1 := by
  induction fuel with
  | zero =>
    intro yoe doe h
    rw [Nat.add_zero] at h
    exact absurd h (by omega)
  | succ fuel ih =>
    intro yoe doe h
    by_cases hd : doe < yearDays yoe
    · have hr : findYear (fuel + 1) yoe doe = (yoe, doe) := by
        simp [findYear, hd]
      rw [hr]
      exact ⟨rfl, hd, Nat.le_refl _⟩
    · have hr : findYear (fuel + 1) yoe doe = findYear fuel (yoe + 1) (doe - yearDays yoe) := by
        simp [findYear, hd]
      rw [hr]
      have hys : yearStart (yoe + 1) = yearStart yoe + yearDays yoe := rfl
      have hidx : yoe + (fuel + 1) = (yoe + 1) + fuel := by omega
      rw [hidx] at h
      have hih := ih (yoe + 1) (doe - yearDays yoe) (by omega)
      omega

theorem findMonth_spec (leap : Bool) (fuel : Nat) : ∀ m doy : Nat,
    monthStart leap m + doy < monthStart leap (m + fuel) →
    monthStart leap (findMonth leap fuel m doy).1 + (findMonth leap fuel m doy).2
      = monthStart leap m + doy ∧
    (findMonth leap fuel m doy).2 < monthLen leap (findMonth leap fuel m doy).1 ∧
    m ≤ (findMonth leap fuel m doy).1 := by
  induction fuel with
  | zero =>
    intro m doy h
    rw [Nat.add_zero] at h
    exact absurd h (by omega)
  | succ fuel ih =>
    intro m doy h
    by_cases hd : doy < monthLen leap m
    · have hr : findMonth leap (fuel + 1) m doy = (m, doy) := by
        simp [findMonth, hd]
      rw [hr]
      exact ⟨rfl, hd, Nat.le_refl _⟩
    · have hr : findMonth leap (fuel + 1) m doy
          = findMonth leap fuel (m + 1) (doy - monthLen leap m) := by
        simp [findMonth, hd]
      rw [hr]
      have hms : monthStart leap (m + 1) = monthStart leap m + monthLen leap m := rfl
      have hidx : m + (fuel + 1) = (m + 1) + fuel := by omega
      rw [hidx] at h
      have hih := ih (m + 1) (doy - monthLen leap m) (by omega)
      omega

theorem yearStart_four_hundred : yearStart 400 = 146097 := by decide

theorem monthStart_thirteen (leap : Bool) :
    monthStart leap 13 = if leap then 366 else 365 := by
  cases leap <;> rfl

/-- Locating the year inside an era: the scan started at year 0 with
400 fuel lands on an in-range year-of-era and day-of-year summing back
to the day-of-era. -/
theorem findYM_spec (doe : Nat) (h : doe < 146097) :
    (findYear 400 0 doe).1 ≤ 399 ∧
    (findYear 400 0 doe).2 < yearDays (findYear 400 0 doe).1 ∧
    yearStart (findYear 400 0 doe).1 + (findYear 400 0 doe).2 = doe := by
  have h0 : yearStart 0 = 0 := rfl
  have h400 : yearStart (0 + 400) = 146097 := by
    rw [Nat.zero_add]; exact yearStart_four_hundred
  obtain ⟨h1, h2, _⟩ := findYear_spec 400 0 doe (by omega)
  refine ⟨?_, h2, by omega⟩
  by_contra hcon
  have hmono := yearStart_mono (show 400 ≤ (findYear 400 0 doe).1 by omega)
  rw [yearStart_four_hundred] at hmono
  omega

/-- Locating the month inside a year: the scan started at month 1 with
12 fuel lands on an in-range month and day-of-month summing back to the
day-of-year. -/
theorem findM_spec (leap : Bool) (doy : Nat) (h : doy < if leap then 366 else 365) :
    1 ≤ (findMonth leap 12 1 doy).1 ∧ (findMonth leap 12 1 doy).1 ≤ 12 ∧
    monthStart leap (findMonth leap 12 1 doy).1 + (findMonth leap 12 1 doy).2 = doy ∧
    (findMonth leap 12 1 doy).2 < monthLen leap (findMonth leap 12 1 doy).1 := by
  have h1 : monthStart leap 1 = 0 := by cases leap <;> rfl
  have h13 : monthStart leap (1 + 12) = if leap then 366 else 365 := by
    have h' : (1 : Nat) + 12 = 13 := rfl
    rw [h']; exact monthStart_thirteen leap
  obtain ⟨hA, hB, hC⟩ := findMonth_spec leap 12 1 doy (by omega)
  refine ⟨hC, ?_, by omega, hB⟩
  by_contra hcon
  have hmono := monthStart_mono leap (show (13 : Nat) ≤ (findMonth leap 12 1 doy).1 by omega)
  rw [monthStart_thirteen leap] at hmono
  omega

/-- Unfolding of `civilFromDays` with the let-bindings expanded. -/
theorem civilFromDays_def (z : Int) :
    civilFromDays z =
      (400 * (z / 146097) + ((findYear 400 0 ((z - 146097 * (z / 146097)).toNat)).1 : Int),
       (findMonth (isLeapN (findYear 400 0 ((z - 146097 * (z / 146097)).toNat)).1) 12 1
         (findYear 400 0 ((z - 146097 * (z / 146097)).toNat)).2).1,
       (findMonth (isLeapN (findYear 400 0 ((z - 146097 * (z / 146097)).toNat)).1) 12 1
         (findYear 400 0 ((z - 146097 * (z / 146097)).toNat)).2).2 + 1) := rfl

/-- Evaluation of `daysFromCivil` on an in-range era decomposition. -/
theorem daysFromCivil_eval (era : Int) (yoe m : Nat) (d : Int)
    (hy : yoe ≤ 399) (hm1 : 1 ≤ m) (hm2 : m ≤ 12) :
    daysFromCivil (400 * era + (yoe : Int)) (m : Int) d
      = 146097 * era + ((yearStart yoe + monthStart (isLeapN yoe) m : Nat) : Int) + (d - 1) := by
  simp only [daysFromCivil]
  have hm1' : (1 : Int) ≤ (m : Int) := by exact_mod_cast hm1
  have hm2' : (m : Int) ≤ 12 := by exact_mod_cast hm2
  have hy' : (yoe : Int) ≤ 399 := by exact_mod_cast hy
  have e1 : (12 * (400 * era + (yoe : Int)) + ((m : Int) - 1)) / 12 = 400 * era + (yoe : Int) := by
    omega
  rw [e1]
  have e2 : (12 * (400 * era + (yoe : Int)) + ((m : Int) - 1) - 12 * (400 * era + (yoe : Int))).toNat
      = m - 1 := by omega
  rw [e2]
  have e3 : (400 * era + (yoe : Int)) / 400 = era := by omega
  rw [e3]
  have e4 : (400 * era + (yoe : Int) - 400 * era).toNat = yoe := by omega
  rw [e4]
  have e5 : m - 1 + 1 = m := by omega
  rw [e5]

/-- The day count round-trips through the civil date: converting a day
count to (year, month, day) and back is the identity, and the civil
date is in range. -/
theorem daysFromCivil_civilFromDays (z : Int) :
    1 ≤ (civilFromDays z).2.1 ∧ (civilFromDays z).2.1 ≤ 12 ∧
    1 ≤ (civilFromDays z).2.2 ∧
    daysFromCivil (civilFromDays z).1 ((civilFromDays z).2.1 : Int)
      ((civilFromDays z).2.2 : Int) = z := by
  rw [civilFromDays_def]
  dsimp only
  generalize hdoe : (z - 146097 * (z / 146097)).toNat = doe
  have hdN : doe < 146097 := by omega
  have hdZ : (doe : Int) = z - 146097 * (z / 146097) := by omega
  obtain ⟨hy399, hdoyY, hysum⟩ := findYM_spec doe hdN
  generalize hyd : findYear 400 0 doe = yd
  rw [hyd] at hy399 hdoyY hysum
  obtain ⟨hm1, hm12, hmsum, hmlt⟩ := findM_spec (isLeapN yd.1) yd.2
    (by have hyy : yearDays yd.1 = if isLeapN yd.1 then 366 else 365 := rfl; omega)
  generalize hmd : findMonth (isLeapN yd.1) 12 1 yd.2 = md
  rw [hmd] at hm1 hm12 hmsum hmlt
  refine ⟨by omega, by exact_mod_cast hm12, by omega, ?_⟩
  rw [daysFromCivil_eval (z / 146097) yd.1 md.1 ((md.2 + 1 : Nat) : Int) hy399 hm1 hm12]
  push_cast
  omega

/-- Adding days with `AddDate` shifts the instant by a whole number of
days: `AddDate t 0 0 n = t + n * 86400`. -/
theorem AddDate_days (t : Int) (n : Int) : AddDate t 0 0 n = t + n * 86400 := by
  have h := daysFromCivil_civilFromDays (t / 86400)
  obtain ⟨h1, h2, h3, h4⟩ := h
  simp only [AddDate]
  have hshift : ∀ (y m d k : Int), daysFromCivil y m (d + k) = daysFromCivil y m d + k := by
    intro y m d k
    simp only [daysFromCivil]
    ring
  rw [Int.add_zero, Int.add_zero, hshift, h4]
  ring

/-! ## Model of Go's default formatting of a `time.Time`

`fmt.Sprintf("%v", t)` on a `time.Time` in UTC with whole seconds
prints `"YYYY-MM-DD HH:MM:SS +0000 UTC"`. -/

/-- Decimal digits of `n`, left-padded with zeros to `width`. -/
def padNat (width n : Nat) : String :=
  let s := toString n
  if s.length < width then String.mk (List.replicate (width - s.length) '0') ++ s else s

/-- Year field of the textual form (sign, then four digits). -/
def yearString (y : Int) : String :=
  if y < 0 then "-" ++ padNat 4 (-y).toNat else padNat 4 y.toNat

/-- Model of Go's `time.Time.String` for a UTC instant with whole
seconds (no monotonic reading, no sub-second part). -/
def timeString (t : Int) : String :=
  let c := dateOf t
  let s := secondOfDay t
  yearString c.1 ++ "-" ++ padNat 2 c.2.1 ++ "-" ++ padNat 2 c.2.2 ++ " " ++
    padNat 2 (s / 3600).toNat ++ ":" ++ padNat 2 ((s % 3600) / 60).toNat ++ ":" ++
    padNat 2 (s % 60).toNat ++ " +0000 UTC"

/-! ## The program's data model (sslreminder.go:37-47) -/

/-- `type config struct` (sslreminder.go:37).  Go's `from` field is
called `fromAddr` here because `from` is reserved in Lean. -/
structure config where
  hosts : List String
  emails : List String
  thresholdDays : Int
  fromAddr : String
deriving DecidableEq

/-- `type sendgridConfig struct` (sslreminder.go:44). -/
structure sendgridConfig where
  username : String
  password : String
deriving DecidableEq

/-- An x509 certificate, reduced to the only field the program reads
(`NotAfter`). -/
structure cert where
  notAfter : Int
deriving DecidableEq

/-- A TLS connection state, reduced to the only field the program reads
(`PeerCertificates`); entries are `Option` because Go's slice holds
pointers that can be nil. -/
structure connState where
  peerCertificates : List (Option cert)
deriving DecidableEq

/-- The mail handed to the SendGrid client by `remind`
(sslreminder.go:191-199): recipients, subject, body text and sender. -/
structure mail where
  tos : List String
  subject : String
  text : String
  fromAddr : String
deriving DecidableEq

/-! ## Certificate inspector and expiration collector -/

/-- Model of `GetExpiration` (sslreminder.go:50-72).  The TLS dial and
the connection state it yields are the oracle parameter `dial`;
`.error` on `dial host` models a non-nil `err` from `tls.Dial`.  The
two in-function failures carry the `fmt.Errorf` messages of the
source. -/
def GetExpiration (dial : String → Except String connState) (host : String) :
    Except String Int :=
  match dial host with
  | .error e => .error e
  | .ok conn =>
    match conn.peerCertificates with
    | [] => .error ("No PeerCertificates found for " ++ host)
    | none :: _ => .error ("First PeerCertificates is nil for " ++ host)
    | some c :: _ => .ok c.notAfter

/-- Insertion into a Go `map[string]time.Time`, represented as an
association list: replace the entry of an existing key in place,
otherwise append. -/
def mapInsert (m : List (String × Int)) (k : String) (v : Int) : List (String × Int) :=
  match m with
  | [] => [(k, v)]
  | (k', v') :: rest => if k' = k then (k, v) :: rest else (k', v') :: mapInsert rest k v

/-- Model of `GetExpirationMap` (sslreminder.go:123-139): inspect each
configured host in order; on error skip the host (`continue`), on
success record its expiration in the map. -/
def GetExpirationMap (dial : String → Except String connState) (c : config) :
    List (String × Int) :=
  c.hosts.foldl (fun m host =>
    match GetExpiration dial host with
    | .error _ => m
    | .ok exp => mapInsert m host exp) []

/-! ## Reminder decision and mail body -/

/-- The threshold instant `now.AddDate(0, 0, config.thresholdDays)`
computed identically in `check` (sslreminder.go:145) and `mailBody`
(sslreminder.go:162). -/
def thresholdInstant (c : config) (now : Int) : Int :=
  AddDate now 0 0 c.thresholdDays

/-- The `soon`/`others` maps built by the range loop of `mailBody`
(sslreminder.go:163-172): each snapshot entry goes to `soon` when its
expiration is before the threshold, to `others` otherwise. -/
def partitionExpirations (c : config) (now : Int) (exMap : List (String × Int)) :
    List (String × Int) × List (String × Int) :=
  exMap.foldl (fun p he =>
    if Before he.2 (thresholdInstant c now) then (mapInsert p.1 he.1 he.2, p.2)
    else (p.1, mapInsert p.2 he.1 he.2)) ([], [])

/-- One host line of the body: `fmt.Sprintf("%v: %v\n", host, ex)`. -/
def expirationLine (he : String × Int) : String :=
  he.1 ++ ": " ++ timeString he.2 ++ "\n"

/-- Model of `mailBody` (sslreminder.go:161-188).  The snapshot is an
association list standing for the Go map `exMap`; the model iterates it
in list order (one admissible iteration order of the Go map). -/
def mailBody (c : config) (now : Int) (exMap : List (String × Int)) : String :=
  let soon := (partitionExpirations c now exMap).1
  let others := (partitionExpirations c now exMap).2
  let buf := "Certificates of following hosts expires soon:\n"
  let buf := soon.foldl (fun b he => b ++ expirationLine he) buf
  if others.length > 0 then
    others.foldl (fun b he => b ++ expirationLine he)
      (buf ++ "\nOthers have enough time to be expired:\n")
  else buf

/-- The mail constructed by `remind` (sslreminder.go:191-199) and
handed to `sendgrid.Send`. -/
def remindMail (c : config) (now : Int) (exMap : List (String × Int)) : mail :=
  { tos := c.emails
    subject := "REMINDER SSL certificate expiration"
    text := mailBody c now exMap
    fromAddr := c.fromAddr }

/-- Model of `check` (sslreminder.go:142-158): build the snapshot,
decide `shouldRemind` by the range loop over it, and call `remind` only
when it is true.  The returned value is the mail handed to the mailer
(`none`: no mail is sent and nothing is formatted). -/
def check (c : config) (sgConfig : sendgridConfig)
    (dial : String → Except String connState) (now : Int) : Option mail :=
  let exMap := GetExpirationMap dial c
  let shouldRemind := exMap.foldl
    (fun b p => if Before p.2 (thresholdInstant c now) then true else b) false
  if shouldRemind then some (remindMail c now exMap) else none

/-! ## Model of `strconv.ParseInt(s, 0, 0)`

Base-0 parsing: an optional sign, then a base prefix (`0b`/`0o`/`0x`,
or a bare leading `0` meaning octal), then digits, with underscore
separators allowed only in the positions `underscoreOK` accepts; the
value must fit in a 64-bit signed integer.  Any syntax or range error
makes `ParseInt` return a non-nil error, which `readConfig` turns into
a fatal exit, so the model collapses all errors to `none`. -/

/-- Digit value of a character as in Go's `ParseUint` loop
(`0`-`9`, then letters case-insensitively from 10). -/
def digitVal (ch : Char) : Option Nat :=
  if '0' ≤ ch ∧ ch ≤ '9' then some (ch.toNat - '0'.toNat)
  else if 'a' ≤ ch ∧ ch ≤ 'z' then some (ch.toNat - 'a'.toNat + 10)
  else if 'A' ≤ ch ∧ ch ≤ 'Z' then some (ch.toNat - 'A'.toNat + 10)
  else none

/-- The digit loop of Go's `ParseUint`: accumulate the value, let `_`
through (recording that one was seen) only in base-0 mode, reject any
non-digit and any digit not below the base. -/
def digitsLoop (base : Nat) (base0 : Bool) : List Char → Nat → Bool → Option (Nat × Bool)
  | [], n, und => some (n, und)
  | ch :: rest, n, und =>
    if ch = '_' ∧ base0 then digitsLoop base base0 rest n true
    else
      match digitVal ch with
      | none => none
      | some d => if d < base then digitsLoop base base0 rest (n * base + d) und else none

/-- Go's `lower(c) == x` test for a prefix letter `x`: true exactly for
the lower- and upper-case letter. -/
def isEither (ch lo hi : Char) : Bool := ch = lo ∨ ch = hi

/-- The scan of Go's `underscoreOK`: `saw` is `^` at the start of the
number, `0` after a digit or base prefix, `_` after an underscore, `!`
after anything else; an underscore must follow a digit/prefix and must
not end the string. -/
def underscoreOKLoop (hex : Bool) : Char → List Char → Bool
  | saw, [] => saw ≠ '_'
  | saw, ch :: rest =>
    if ('0' ≤ ch ∧ ch ≤ '9') ∨ (hex ∧ (('a' ≤ ch ∧ ch ≤ 'f') ∨ ('A' ≤ ch ∧ ch ≤ 'F'))) then
      underscoreOKLoop hex '0' rest
    else if ch = '_' then
      if saw ≠ '0' then false else underscoreOKLoop hex '_' rest
    else if saw = '_' then false
    else underscoreOKLoop hex '!' rest

/-- Model of Go's `underscoreOK` over the sign-bearing digit string. -/
def underscoreOK (cs : List Char) : Bool :=
  let cs1 := match cs with
    | ch :: rest => if ch = '-' ∨ ch = '+' then rest else cs
    | [] => cs
  match cs1 with
  | c0 :: c1 :: rest =>
    if c0 = '0' ∧ (isEither c1 'b' 'B' ∨ isEither c1 'o' 'O' ∨ isEither c1 'x' 'X') then
      underscoreOKLoop (isEither c1 'x' 'X') '0' rest
    else underscoreOKLoop false '^' cs1
  | _ => underscoreOKLoop false '^' cs1

/-- Base detection of Go's `ParseUint` when called with base 0: a
`0b`/`0o`/`0x` prefix (only when more characters follow) selects the
base and is stripped; otherwise a leading `0` followed by anything
selects octal and the `0` is stripped; otherwise base 10. -/
def splitBase0 (cs : List Char) : Nat × List Char :=
  match cs with
  | '0' :: c1 :: c2 :: t =>
    if isEither c1 'b' 'B' then (2, c2 :: t)
    else if isEither c1 'o' 'O' then (8, c2 :: t)
    else if isEither c1 'x' 'X' then (16, c2 :: t)
    else (8, c1 :: c2 :: t)
  | ['0', c1] => (8, [c1])
  | _ => (10, cs)

/-- Model of `strconv.ParseInt(s, 0, 0)` (64-bit `int`): `none` models
any non-nil error (empty input, bad syntax, misplaced underscores, or a
value outside the signed 64-bit range). -/
def parseInt0 (s : String) : Option Int :=
  match s.toList with
  | [] => none
  | cs =>
    let signed := match cs with
      | '-' :: t => (true, t)
      | '+' :: t => (false, t)
      | _ => (false, cs)
    let neg := signed.1
    let cs1 := signed.2
    match cs1 with
    | [] => none
    | _ =>
      let bd := splitBase0 cs1
      match digitsLoop bd.1 true bd.2 0 false with
      | none => none
      | some (n, und) =>
        if und ∧ underscoreOK cs1 = false then none
        else
          let v : Int := if neg then -(n : Int) else (n : Int)
          if v < -(2 ^ 63) ∨ v > 2 ^ 63 - 1 then none else some v

/-! ## Configuration loading (sslreminder.go:74-120, 207-209)

The process environment is the oracle `env : String → String`;
`os.Getenv` returns `""` for an unset variable, so absent and empty are
indistinguishable, as in the source's `len(value) == 0` tests.  A
`log.Fatalf` exit is modelled by `none`. -/

/-- Model of `envMandatory` (sslreminder.go:76-82): `none` models the
fatal exit on an empty or unset variable. -/
def envMandatory (env : String → String) (key : String) : Option String :=
  let value := env key
  if value.length = 0 then none else some value

/-- Model of `envOptional` (sslreminder.go:86-92). -/
def envOptional (env : String → String) (key defaultValue : String) : String :=
  let value := env key
  if value.length = 0 then defaultValue else value

/-- The scan of `strings.Split` for a one-character separator (the
program only ever splits on `","`): cut the character list at every
separator; the result always has at least one (possibly empty)
segment. -/
def goSplitChars (sep : Char) : List Char → List (List Char)
  | [] => [[]]
  | ch :: rest =>
    if ch = sep then [] :: goSplitChars sep rest
    else
      match goSplitChars sep rest with
      | [] => [[ch]]
      | g :: gs => (ch :: g) :: gs

/-- Model of `strings.Split` with a one-character separator. -/
def goSplit (s : String) (sep : Char) : List String :=
  (goSplitChars sep s.toList).map (fun cs => String.mk cs)

/-- Model of `readConfig` (sslreminder.go:103-120), in the source's
evaluation order: parse `THRESHOLD_DAYS` (default `"30"`, fatal on
parse error), read `EMAILS`, read `HOSTS`, and default `FROM` to
`emails[0]` (`headD` is safe: `strings.Split` never returns an empty
slice, and `EMAILS` is mandatory and non-empty here). -/
def readConfig (env : String → String) : Option config :=
  let thresholdString := envOptional env "THRESHOLD_DAYS" "30"
  match parseInt0 thresholdString with
  | none => none
  | some threshold =>
    match envMandatory env "EMAILS" with
    | none => none
    | some emailsStr =>
      let emails := goSplit emailsStr ','
      match envMandatory env "HOSTS" with
      | none => none
      | some hostsStr =>
        some { hosts := goSplit hostsStr ','
               emails := emails
               thresholdDays := threshold
               fromAddr := envOptional env "FROM" (emails.headD "") }

/-- Model of `readSendgridConfig` (sslreminder.go:95-100). -/
def readSendgridConfig (env : String → String) : Option sendgridConfig :=
  match envMandatory env "SENDGRID_USERNAME" with
  | none => none
  | some username =>
    match envMandatory env "SENDGRID_PASSWORD" with
    | none => none
    | some password => some { username := username, password := password }

/-- The configuration phase of `main` (sslreminder.go:207-209):
`readConfig` then `readSendgridConfig`; `none` models the process
exiting fatally before any check is started. -/
def mainConfigPhase (env : String → String) : Option (config × sendgridConfig) :=
  match readConfig env with
  | none => none
  | some c =>
    match readSendgridConfig env with
    | none => none
    | some sg => some (c, sg)

/-- The first check cycle of `main` (sslreminder.go:210): run only when
the configuration phase survived; `none` means the process exited
before any check cycle or network call. -/
def mainFirstCheck (env : String → String) (dial : String → Except String connState)
    (now : Int) : Option (Option mail) :=
  match mainConfigPhase env with
  | none => none
  | some cs => some (check cs.1 cs.2 dial now)

/-! ## Lemmas about the snapshot map -/

theorem lookup_mapInsert_self (m : List (String × Int)) (k : String) (v : Int) :
    (mapInsert m k v).lookup k = some v := by
  induction m with
  | nil => simp [mapInsert, List.lookup]
  | cons p rest ih =>
    obtain ⟨k', v'⟩ := p
    by_cases h : k' = k
    · simp [mapInsert, h, List.lookup]
    · simp only [mapInsert, h, if_false, List.lookup]
      have hbeq : (k == k') = false := by
        simp [Ne.symm h]
      simp [hbeq, ih]

theorem lookup_mapInsert_ne (m : List (String × Int)) (k k' : String) (v : Int)
    (h : k' ≠ k) : (mapInsert m k v).lookup k' = m.lookup k' := by
  have hbeq : (k' == k) = false := by simp [h]
  induction m with
  | nil => simp [mapInsert, List.lookup, hbeq]
  | cons p rest ih =>
    obtain ⟨k₁, v₁⟩ := p
    by_cases h1 : k₁ = k
    · have hbeq1 : (k' == k₁) = false := by simp [h1 ▸ h]
      simp [mapInsert, h1, List.lookup, hbeq, hbeq1]
    · by_cases h2 : k' = k₁
      · simp [mapInsert, h1, List.lookup, h2]
      · have hbeq1 : (k' == k₁) = false := by simp [h2]
        simp [mapInsert, h1, List.lookup, hbeq1, ih]

theorem getExpirationMap_foldl_lookup (dial : String → Except String connState)
    (hosts : List String) : ∀ (acc : List (String × Int)) (h : String),
    (hosts.foldl (fun m host =>
      match GetExpiration dial host with
      | .error _ => m
      | .ok exp => mapInsert m host exp) acc).lookup h =
    if h ∈ hosts then
      match GetExpiration dial h with
      | .ok e => some e
      | .error _ => acc.lookup h
    else acc.lookup h := by
  induction hosts with
  | nil => intro acc h; simp
  | cons a hosts ih =>
    intro acc h
    simp only [List.foldl_cons]
    cases hga : GetExpiration dial a with
    | error err =>
      rw [ih]
      by_cases hha : h = a
      · subst hha
        by_cases hmem : h ∈ hosts <;> simp [hmem, hga]
      · have hmm : (h ∈ a :: hosts) ↔ (h ∈ hosts) := by simp [hha]
        by_cases hmem : h ∈ hosts <;> simp [hmem, hmm, hha]
    | ok e' =>
      rw [ih]
      by_cases hha : h = a
      · subst hha
        by_cases hmem : h ∈ hosts
        · simp [hmem, hga]
        · simp [hmem, hga, lookup_mapInsert_self]
      · have hmm : (h ∈ a :: hosts) ↔ (h ∈ hosts) := by simp [hha]
        by_cases hmem : h ∈ hosts
        · simp only [hmem, if_pos, hmm]
          cases hgh : GetExpiration dial h <;>
            simp [lookup_mapInsert_ne acc a h e' hha]
        · simp [hmem, hmm, lookup_mapInsert_ne acc a h e' hha]

/-- C3: the collector's mapping holds exactly the hosts whose
inspection succeeded, each mapped to the inspector's value; failed
hosts are absent and do not disturb the rest; the mapping is total in
the inputs (it is a function of them). -/
theorem claim_C3_collector (dial : String → Except String connState) (c : config) :
    ∀ (h : String) (e : Int),
      ((GetExpirationMap dial c).lookup h = some e ↔
        h ∈ c.hosts ∧ GetExpiration dial h = .ok e) := by
  intro h e
  unfold GetExpirationMap
  rw [getExpirationMap_foldl_lookup]
  by_cases hmem : h ∈ c.hosts
  · simp only [hmem, if_pos, true_and]
    cases hgh : GetExpiration dial h <;> simp [List.lookup]
  · simp [hmem, List.lookup]

/-! ## The reminder decision -/

theorem shouldRemind_foldl (th : Int) (l : List (String × Int)) :
    ∀ b : Bool, l.foldl (fun b p => if Before p.2 th then true else b) b
      = (b || l.any (fun p => Before p.2 th)) := by
  induction l with
  | nil => intro b; simp
  | cons p l ih =>
    intro b
    simp only [List.foldl_cons, List.any_cons]
    cases hb : Before p.2 th
    · rw [ih]
      simp
    · rw [ih]
      simp

theorem Before_iff (a b : Int) : Before a b = true ↔ a < b := by
  simp [Before]

/-- C1: `check` decides to remind — and hands a mail to the mailer —
exactly when some recorded expiration in the snapshot is strictly
before `now.AddDate(0, 0, thresholdDays)`; otherwise (in particular on
an empty snapshot) it returns no mail and formats nothing. -/
theorem claim_C1_remind_iff (c : config) (sg : sendgridConfig)
    (dial : String → Except String connState) (now : Int) :
    ((check c sg dial now).isSome = true ↔
      ∃ p ∈ GetExpirationMap dial c, p.2 < AddDate now 0 0 c.thresholdDays) ∧
    (check c sg dial now = none ↔
      ∀ p ∈ GetExpirationMap dial c, ¬(p.2 < AddDate now 0 0 c.thresholdDays)) ∧
    (GetExpirationMap dial c = [] → check c sg dial now = none) := by
  have hfold := shouldRemind_foldl (thresholdInstant c now) (GetExpirationMap dial c) false
  have hth : thresholdInstant c now = AddDate now 0 0 c.thresholdDays := rfl
  have hcheck : check c sg dial now =
      (if (GetExpirationMap dial c).any (fun p => Before p.2 (thresholdInstant c now)) = true
        then some (remindMail c now (GetExpirationMap dial c)) else none) := by
    simp only [check]
    rw [hfold, Bool.false_or]
  have hiff : (check c sg dial now).isSome = true ↔
      ∃ p ∈ GetExpirationMap dial c, p.2 < AddDate now 0 0 c.thresholdDays := by
    rw [hcheck]
    cases hany : (GetExpirationMap dial c).any
        (fun p => Before p.2 (thresholdInstant c now)) with
    | false =>
      rw [if_neg (show ¬(false = true) by decide)]
      rw [List.any_eq_false] at hany
      simp only [Option.isSome_none]
      refine ⟨fun hff => absurd hff (by decide), fun hex => ?_⟩
      obtain ⟨p, hp, hlt⟩ := hex
      have hbt : Before p.2 (thresholdInstant c now) = true :=
        (Before_iff _ _).mpr (by rw [hth]; exact hlt)
      exact (hany p hp hbt).elim
    | true =>
      rw [if_pos rfl]
      rw [List.any_eq_true] at hany
      obtain ⟨p, hp, hbp⟩ := hany
      simp only [Option.isSome_some]
      have hbt : Before p.2 (thresholdInstant c now) = true := by simpa using hbp
      exact ⟨fun _ => ⟨p, hp, by rw [← hth]; exact (Before_iff _ _).mp hbt⟩, fun _ => trivial⟩
  refine ⟨hiff, ?_, ?_⟩
  · constructor
    · intro hnone p hp hlt
      have : (check c sg dial now).isSome = true := hiff.mpr ⟨p, hp, hlt⟩
      rw [hnone] at this
      exact absurd this (by simp)
    · intro hall
      cases hchk : check c sg dial now with
      | none => rfl
      | some m =>
        have : (check c sg dial now).isSome = true := by rw [hchk]; rfl
        obtain ⟨p, hp, hlt⟩ := hiff.mp this
        exact absurd hlt (hall p hp)
  · intro hempty
    cases hchk : check c sg dial now with
    | none => rfl
    | some m =>
      have : (check c sg dial now).isSome = true := by rw [hchk]; rfl
      obtain ⟨p, hp, _⟩ := hiff.mp this
      rw [hempty] at hp
      exact absurd hp (by simp)

/-- C1 witness at a concrete input: empty host list gives an empty
snapshot and no mail. -/
theorem claim_C1_remind_iff_witness :
    check { hosts := [], emails := ["a@x"], thresholdDays := 30, fromAddr := "a@x" }
      { username := "u", password := "p" } (fun _ => .error "refused") 0 = none :=
  (claim_C1_remind_iff _ _ _ _).2.2 rfl

/-- C4: the inspector succeeds exactly when the dial succeeds and the
peer's first certificate slot holds a certificate, returning that
certificate's not-valid-after instant; it fails exactly on dial error,
an empty certificate list, or a nil first certificate. -/
theorem claim_C4_inspector (dial : String → Except String connState) (host : String) :
    (∀ e, GetExpiration dial host = .ok e ↔
      ∃ st c rest, dial host = .ok st ∧ st.peerCertificates = some c :: rest ∧
        e = c.notAfter) ∧
    ((∃ err, GetExpiration dial host = .error err) ↔
      ((∃ err, dial host = .error err) ∨
        ∃ st, dial host = .ok st ∧
          (st.peerCertificates = [] ∨ ∃ rest, st.peerCertificates = none :: rest))) := by
  cases hd : dial host with
  | error err =>
    constructor
    · intro e
      simp [GetExpiration, hd]
    · simp [GetExpiration, hd]
  | ok st =>
    cases hpc : st.peerCertificates with
    | nil =>
      constructor
      · intro e
        simp [GetExpiration, hd, hpc]
      · simp [GetExpiration, hd, hpc]
    | cons c0 rest0 =>
      cases c0 with
      | none =>
        constructor
        · intro e
          simp [GetExpiration, hd, hpc]
        · simp [GetExpiration, hd, hpc]
      | some c1 =>
        constructor
        · intro e
          simp only [GetExpiration, hd, hpc]
          constructor
          · intro hok
            have he : c1.notAfter = e := by
              simpa using hok
            exact ⟨st, c1, rest0, rfl, hpc, he.symm⟩
          · rintro ⟨st', c', rest', hst, hpc', he⟩
            have hst2 : st = st' := by
              simpa using hst
            subst hst2
            rw [hpc] at hpc'
            simp only [List.cons.injEq, Option.some.injEq] at hpc'
            obtain ⟨hc, hr⟩ := hpc'
            subst hc
            subst he
            simp
        · simp [GetExpiration, hd, hpc]

/-! ## Lemmas about the soon/others partition and the body text -/

theorem mapInsert_ne_nil (m : List (String × Int)) (k : String) (v : Int) :
    mapInsert m k v ≠ [] := by
  cases m with
  | nil => simp [mapInsert]
  | cons p rest =>
    simp only [mapInsert]
    split <;> simp

theorem partition_foldl_fst_ne_nil (c : config) (now : Int) (l : List (String × Int)) :
    ∀ acc : List (String × Int) × List (String × Int),
      (acc.1 ≠ [] ∨ ∃ p ∈ l, Before p.2 (thresholdInstant c now) = true) →
      (l.foldl (fun p he =>
        if Before he.2 (thresholdInstant c now) then (mapInsert p.1 he.1 he.2, p.2)
        else (p.1, mapInsert p.2 he.1 he.2)) acc).1 ≠ [] := by
  induction l with
  | nil =>
    intro acc h
    rcases h with h | ⟨p, hp, _⟩
    · simpa using h
    · exact absurd hp (by simp)
  | cons a l ih =>
    intro acc h
    simp only [List.foldl_cons]
    by_cases hb : Before a.2 (thresholdInstant c now) = true
    · rw [if_pos hb]
      exact ih _ (Or.inl (mapInsert_ne_nil _ _ _))
    · rw [if_neg hb]
      apply ih
      rcases h with hacc | ⟨p, hp, hbp⟩
      · exact Or.inl hacc
      · rcases List.mem_cons.mp hp with hpa | hpl
        · subst hpa
          exact absurd hbp hb
        · exact Or.inr ⟨p, hpl, hbp⟩

/-- C9: whenever `check` decides to remind, the `soon` partition that
`mailBody` computes from the same configuration, instant and snapshot
is non-empty, and the sent mail's body is exactly that `mailBody`
output — both sides recompute the identical threshold instant. -/
theorem claim_C9_soon_nonempty (c : config) (sg : sendgridConfig)
    (dial : String → Except String connState) (now : Int) (m : mail)
    (hchk : check c sg dial now = some m) :
    (partitionExpirations c now (GetExpirationMap dial c)).1 ≠ [] ∧
    m.text = mailBody c now (GetExpirationMap dial c) := by
  have hfold := shouldRemind_foldl (thresholdInstant c now) (GetExpirationMap dial c) false
  simp only [check] at hchk
  rw [hfold, Bool.false_or] at hchk
  cases hany : (GetExpirationMap dial c).any
      (fun p => Before p.2 (thresholdInstant c now)) with
  | false =>
    rw [hany, if_neg (show ¬(false = true) by decide)] at hchk
    exact absurd hchk (by simp)
  | true =>
    rw [hany, if_pos rfl] at hchk
    have hm : m = remindMail c now (GetExpirationMap dial c) := by
      cases hchk
      rfl
    subst hm
    refine ⟨?_, rfl⟩
    rw [List.any_eq_true] at hany
    obtain ⟨p, hp, hbp⟩ := hany
    exact partition_foldl_fst_ne_nil c now _ ([], [])
      (Or.inr ⟨p, hp, by simpa using hbp⟩)

/-- C9 witness: a single host whose certificate expires the next day
triggers a reminder whose `soon` partition is that host. -/
theorem claim_C9_soon_nonempty_witness :
    (partitionExpirations
        { hosts := ["h1"], emails := ["a@x"], thresholdDays := 30, fromAddr := "a@x" }
        (Date 2024 1 1 0 0 0)
        (GetExpirationMap
          (fun _ => .ok { peerCertificates := [some { notAfter := Date 2024 1 2 0 0 0 }] })
          { hosts := ["h1"], emails := ["a@x"], thresholdDays := 30, fromAddr := "a@x" })).1 ≠ [] := by
  have h := claim_C9_soon_nonempty
    { hosts := ["h1"], emails := ["a@x"], thresholdDays := 30, fromAddr := "a@x" }
    { username := "u", password := "p" }
    (fun _ => .ok { peerCertificates := [some { notAfter := Date 2024 1 2 0 0 0 }] })
    (Date 2024 1 1 0 0 0)
    (remindMail
      { hosts := ["h1"], emails := ["a@x"], thresholdDays := 30, fromAddr := "a@x" }
      (Date 2024 1 1 0 0 0)
      (GetExpirationMap
        (fun _ => .ok { peerCertificates := [some { notAfter := Date 2024 1 2 0 0 0 }] })
        { hosts := ["h1"], emails := ["a@x"], thresholdDays := 30, fromAddr := "a@x" }))
    (by decide)
  exact h.1

theorem mapInsert_fresh (m : List (String × Int)) (k : String) (v : Int)
    (h : ∀ p ∈ m, p.1 ≠ k) : mapInsert m k v = m ++ [(k, v)] := by
  induction m with
  | nil => rfl
  | cons p rest ih =>
    obtain ⟨k', v'⟩ := p
    have hk : k' ≠ k := h (k', v') (by simp)
    simp [mapInsert, hk, ih (fun q hq => h q (by simp [hq]))]

theorem partition_foldl_filter (c : config) (now : Int) (l : List (String × Int)) :
    ∀ acc1 acc2 : List (String × Int),
    (l.map Prod.fst).Nodup →
    (∀ p ∈ l, ∀ q ∈ acc1, q.1 ≠ p.1) →
    (∀ p ∈ l, ∀ q ∈ acc2, q.1 ≠ p.1) →
    l.foldl (fun p he =>
        if Before he.2 (thresholdInstant c now) then (mapInsert p.1 he.1 he.2, p.2)
        else (p.1, mapInsert p.2 he.1 he.2)) (acc1, acc2) =
      (acc1 ++ l.filter (fun he => Before he.2 (thresholdInstant c now)),
       acc2 ++ l.filter (fun he => !Before he.2 (thresholdInstant c now))) := by
  induction l with
  | nil => intro acc1 acc2 _ _ _; simp
  | cons a l ih =>
    intro acc1 acc2 hnd h1 h2
    simp only [List.foldl_cons]
    have hndl : (l.map Prod.fst).Nodup := by
      simp only [List.map_cons] at hnd
      exact hnd.of_cons
    have hafst : a.1 ∉ l.map Prod.fst := by
      simp only [List.map_cons] at hnd
      exact (List.nodup_cons.mp hnd).1
    have hfresh : ∀ p ∈ l, a.1 ≠ p.1 := by
      intro p hp heq
      exact hafst (heq ▸ List.mem_map_of_mem Prod.fst hp)
    by_cases hb : Before a.2 (thresholdInstant c now) = true
    · rw [if_pos hb]
      have hins : mapInsert acc1 a.1 a.2 = acc1 ++ [(a.1, a.2)] :=
        mapInsert_fresh _ _ _ (fun q hq => h1 a (by simp) q hq)
      rw [hins]
      rw [ih (acc1 ++ [(a.1, a.2)]) acc2 hndl
        (fun p hp q hq => by
          rcases List.mem_append.mp hq with hq1 | hq2
          · exact h1 p (by simp [hp]) q hq1
          · have : q = (a.1, a.2) := by simpa using hq2
            rw [this]
            exact hfresh p hp)
        (fun p hp q hq => h2 p (by simp [hp]) q hq)]
      simp [List.filter_cons, hb, List.append_assoc]
    · rw [if_neg hb]
      have hins : mapInsert acc2 a.1 a.2 = acc2 ++ [(a.1, a.2)] :=
        mapInsert_fresh _ _ _ (fun q hq => h2 a (by simp) q hq)
      rw [hins]
      rw [ih acc1 (acc2 ++ [(a.1, a.2)]) hndl
        (fun p hp q hq => h1 p (by simp [hp]) q hq)
        (fun p hp q hq => by
          rcases List.mem_append.mp hq with hq1 | hq2
          · exact h2 p (by simp [hp]) q hq1
          · have : q = (a.1, a.2) := by simpa using hq2
            rw [this]
            exact hfresh p hp)]
      simp [List.filter_cons, hb, List.append_assoc]

theorem partitionExpirations_filter (c : config) (now : Int) (exMap : List (String × Int))
    (hnd : (exMap.map Prod.fst).Nodup) :
    partitionExpirations c now exMap =
      (exMap.filter (fun he => Before he.2 (thresholdInstant c now)),
       exMap.filter (fun he => !Before he.2 (thresholdInstant c now))) := by
  unfold partitionExpirations
  rw [partition_foldl_filter c now exMap [] [] hnd (by simp) (by simp)]
  simp

/-- Concatenation of a list of strings. -/
def concatStrings : List String → String
  | [] => ""
  | s :: rest => s ++ concatStrings rest

theorem foldl_append_lines (l : List (String × Int)) :
    ∀ init : String,
      l.foldl (fun b he => b ++ expirationLine he) init
        = init ++ concatStrings (l.map expirationLine) := by
  induction l with
  | nil => intro init; simp [concatStrings]
  | cons a l ih =>
    intro init
    simp only [List.foldl_cons, List.map_cons, concatStrings]
    rw [ih, String.append_assoc]

/-- C5: when the body is produced, the snapshot is partitioned by the
threshold instant — `soon` holds exactly the entries expiring strictly
before it, `others` exactly the remaining entries, every snapshot entry
landing in exactly one of the two — and the body is the header line,
one `"<host>: <expiration>\n"` line per `soon` entry, and, only when
`others` is non-empty, a blank line, the second header and one such
line per `others` entry. -/
theorem claim_C5_body_format (c : config) (now : Int) (exMap : List (String × Int))
    (hnd : (exMap.map Prod.fst).Nodup) :
    mailBody c now exMap =
      "Certificates of following hosts expires soon:\n" ++
        concatStrings
          ((exMap.filter (fun he => Before he.2 (thresholdInstant c now))).map expirationLine) ++
        (if exMap.filter (fun he => !Before he.2 (thresholdInstant c now)) = [] then ""
         else "\nOthers have enough time to be expired:\n" ++
           concatStrings
             ((exMap.filter (fun he => !Before he.2 (thresholdInstant c now))).map expirationLine)) ∧
    (partitionExpirations c now exMap).1
      = exMap.filter (fun he => Before he.2 (thresholdInstant c now)) ∧
    (partitionExpirations c now exMap).2
      = exMap.filter (fun he => !Before he.2 (thresholdInstant c now)) ∧
    (∀ he ∈ exMap,
      (he ∈ (partitionExpirations c now exMap).1 ∧ he ∉ (partitionExpirations c now exMap).2) ∨
      (he ∈ (partitionExpirations c now exMap).2 ∧ he ∉ (partitionExpirations c now exMap).1)) := by
  have hpart := partitionExpirations_filter c now exMap hnd
  have hfst : (partitionExpirations c now exMap).1
      = exMap.filter (fun he => Before he.2 (thresholdInstant c now)) := by rw [hpart]
  have hsnd : (partitionExpirations c now exMap).2
      = exMap.filter (fun he => !Before he.2 (thresholdInstant c now)) := by rw [hpart]
  refine ⟨?_, hfst, hsnd, ?_⟩
  · simp only [mailBody]
    rw [hfst, hsnd, foldl_append_lines, foldl_append_lines]
    cases hoth : exMap.filter (fun he => !Before he.2 (thresholdInstant c now)) with
    | nil =>
      simp [String.append_empty]
    | cons o os =>
      simp only [List.length_cons, if_pos (by omega : 0 < os.length + 1), if_neg
        (show ¬(o :: os = []) by simp)]
      simp [String.append_assoc]
  · intro he hmem
    by_cases hb : Before he.2 (thresholdInstant c now) = true
    · left
      constructor
      · rw [hfst]; exact List.mem_filter.mpr ⟨hmem, by simpa using hb⟩
      · rw [hsnd]
        intro hcon
        have := (List.mem_filter.mp hcon).2
        simp [hb] at this
    · right
      constructor
      · rw [hsnd]
        exact List.mem_filter.mpr ⟨hmem, by simpa using hb⟩
      · rw [hfst]
        intro hcon
        have := (List.mem_filter.mp hcon).2
        simp at this
        exact hb this

/-- A concrete configuration used by witnesses and counterexamples. -/
def sampleConfig : config :=
  { hosts := ["a.com", "b.com"], emails := ["e@x"], thresholdDays := 30, fromAddr := "e@x" }

/-- A concrete check instant (2024-01-01 00:00:00 UTC). -/
def sampleNow : Int := Date 2024 1 1 0 0 0

/-- A concrete snapshot with both entries expiring soon. -/
def snapAB : List (String × Int) :=
  [("a.com", Date 2024 1 5 0 0 0), ("b.com", Date 2024 1 6 0 0 0)]

/-- `snapAB` enumerated in the other order (the same mapping). -/
def snapBA : List (String × Int) :=
  [("b.com", Date 2024 1 6 0 0 0), ("a.com", Date 2024 1 5 0 0 0)]

/-- A concrete snapshot with one soon and one distant expiration. -/
def snapMixed : List (String × Int) :=
  [("a.com", Date 2024 1 5 0 0 0), ("b.com", Date 2025 6 1 0 0 0)]

/-- C5 witness at a concrete two-host snapshot with distinct keys. -/
theorem claim_C5_body_format_witness :
    (partitionExpirations sampleConfig sampleNow snapMixed).1
      = snapMixed.filter
          (fun he => Before he.2 (thresholdInstant sampleConfig sampleNow)) :=
  (claim_C5_body_format sampleConfig sampleNow snapMixed (by decide)).2.1

/-- C6 counterexample: the same host→expiration mapping presented in
two enumeration orders (Go's map iteration order is unspecified and can
differ between two runs on identical inputs) yields different body
strings, so the formatter is not deterministic at the byte level. -/
theorem claim_C6_counterexample :
    snapAB.Perm snapBA ∧
    mailBody sampleConfig sampleNow snapAB ≠ mailBody sampleConfig sampleNow snapBA := by
  constructor
  · exact List.Perm.swap _ _ _
  · decide

/-- C6 amended: the formatter is deterministic only up to the map's
iteration order: it is a function of the enumeration sequence, and
permuting a (key-distinct) snapshot permutes each partition, so the
collection of lines in each section is determined by the inputs even
though their order — hence the byte-level body — is not. -/
theorem claim_C6_amended (c : config) (now : Int) (l1 l2 : List (String × Int))
    (hperm : l1.Perm l2) (hnd : (l1.map Prod.fst).Nodup) :
    ((partitionExpirations c now l1).1).Perm ((partitionExpirations c now l2).1) ∧
    ((partitionExpirations c now l1).2).Perm ((partitionExpirations c now l2).2) := by
  have hnd2 : (l2.map Prod.fst).Nodup := ((hperm.map Prod.fst).nodup_iff).mp hnd
  rw [partitionExpirations_filter c now l1 hnd, partitionExpirations_filter c now l2 hnd2]
  exact ⟨hperm.filter _, hperm.filter _⟩

/-- C6 amended witness at a concrete swapped snapshot. -/
theorem claim_C6_amended_witness :
    ((partitionExpirations sampleConfig sampleNow snapAB).1).Perm
      ((partitionExpirations sampleConfig sampleNow snapBA).1) :=
  (claim_C6_amended sampleConfig sampleNow snapAB snapBA
    (List.Perm.swap _ _ _) (by decide)).1

/-- A one-host configuration with the default 30-day threshold. -/
def sampleConfig30 : config :=
  { hosts := ["h"], emails := ["e"], thresholdDays := 30, fromAddr := "e" }

/-- A one-host configuration with a 10-day threshold. -/
def sampleConfig10 : config :=
  { hosts := ["h"], emails := ["e"], thresholdDays := 10, fromAddr := "e" }

/-- C2: the threshold instant is `now` advanced by `thresholdDays`
whole calendar days — the day number advances by exactly
`thresholdDays` and the clock time within the day is unchanged — and on
the spec's example it crosses the month boundary correctly:
2024-01-20 + 30 days = 2024-02-19; a year boundary is also crossed
correctly: 2023-12-28 + 10 days = 2024-01-07. -/
theorem claim_C2_threshold_calendar :
    (∀ (c : config) (now : Int),
      dayNumberOf (thresholdInstant c now) = dayNumberOf now + c.thresholdDays ∧
      secondOfDay (thresholdInstant c now) = secondOfDay now) ∧
    dateOf (thresholdInstant sampleConfig30 (Date 2024 1 20 0 0 0)) = (2024, 2, 19) ∧
    dateOf (thresholdInstant sampleConfig10 (Date 2023 12 28 0 0 0)) = (2024, 1, 7) := by
  refine ⟨?_, by decide, by decide⟩
  intro c now
  have h := AddDate_days now c.thresholdDays
  unfold thresholdInstant dayNumberOf secondOfDay
  rw [h]
  constructor <;> omega

/-! ## Configuration claims -/

theorem string_length_zero_iff (s : String) : s.length = 0 ↔ s = "" := by
  constructor
  · intro h
    cases s with
    | mk data =>
      simp [String.length] at h
      simp [h]
  · intro h
    simp [h]

theorem goSplitChars_ne_nil (sep : Char) (cs : List Char) : goSplitChars sep cs ≠ [] := by
  induction cs with
  | nil => simp [goSplitChars]
  | cons ch rest ih =>
    simp only [goSplitChars]
    by_cases h : ch = sep
    · simp [h]
    · simp only [h, if_false]
      cases hg : goSplitChars sep rest with
      | nil => simp
      | cons g gs => simp

theorem goSplit_ne_nil (s : String) (sep : Char) : goSplit s sep ≠ [] := by
  unfold goSplit
  intro h
  rw [List.map_eq_nil_iff] at h
  exact goSplitChars_ne_nil sep s.toList h

/-- C7: two independent defaults.  Whenever the threshold setting is
absent, any configuration `readConfig` produces has `thresholdDays =
30` — regardless of the other settings; and whenever the from-address
setting is absent, any configuration `readConfig` produces has its
sender equal to the first entry of the recipient list — regardless of
the other settings. -/
theorem claim_C7_defaults (env : String → String) :
    (env "THRESHOLD_DAYS" = "" →
      ∀ cfg, readConfig env = some cfg → cfg.thresholdDays = 30) ∧
    (env "FROM" = "" →
      ∀ cfg, readConfig env = some cfg →
        ∃ e0 rest, cfg.emails = e0 :: rest ∧ cfg.fromAddr = e0 ∧
          cfg.emails = goSplit (env "EMAILS") ',') := by
  constructor
  · intro hthr cfg hcfg
    have h1 : envOptional env "THRESHOLD_DAYS" "30" = "30" := by
      unfold envOptional
      rw [hthr]
      rfl
    have h2 : parseInt0 "30" = some 30 := by decide
    simp only [readConfig, h1, h2] at hcfg
    cases he : envMandatory env "EMAILS" with
    | none =>
      rw [he] at hcfg
      exact absurd hcfg (by simp)
    | some es =>
      rw [he] at hcfg
      cases hh : envMandatory env "HOSTS" with
      | none =>
        rw [hh] at hcfg
        exact absurd hcfg (by simp)
      | some hs =>
        rw [hh] at hcfg
        have := (Option.some.injEq _ _).mp hcfg
        rw [← this]
  · intro hfrom cfg hcfg
    simp only [readConfig] at hcfg
    cases hp : parseInt0 (envOptional env "THRESHOLD_DAYS" "30") with
    | none =>
      rw [hp] at hcfg
      exact absurd hcfg (by simp)
    | some t =>
      rw [hp] at hcfg
      cases he : envMandatory env "EMAILS" with
      | none =>
        rw [he] at hcfg
        exact absurd hcfg (by simp)
      | some es =>
        rw [he] at hcfg
        cases hh : envMandatory env "HOSTS" with
        | none =>
          rw [hh] at hcfg
          exact absurd hcfg (by simp)
        | some hs =>
          rw [hh] at hcfg
          have hes : es = env "EMAILS" := by
            unfold envMandatory at he
            by_cases hlen : (env "EMAILS").length = 0
            · rw [if_pos hlen] at he
              exact absurd he (by simp)
            · rw [if_neg hlen] at he
              exact ((Option.some.injEq _ _).mp he).symm
          have h5 : ∀ d : String, envOptional env "FROM" d = d := by
            intro d
            unfold envOptional
            rw [hfrom]
            rfl
          have hcfg2 := (Option.some.injEq _ _).mp hcfg
          cases hg : goSplit es ',' with
          | nil => exact absurd hg (goSplit_ne_nil es ',')
          | cons e0 rest =>
            refine ⟨e0, rest, ?_, ?_, ?_⟩
            · rw [← hcfg2]
              simpa using hg
            · rw [← hcfg2]
              simp only [h5]
              rw [hg]
              rfl
            · rw [← hcfg2, ← hes]

/-- An environment with only the mandatory settings present. -/
def sampleEnv : String → String := fun k =>
  if k = "EMAILS" then "a@x,b@y"
  else if k = "HOSTS" then "h1"
  else if k = "SENDGRID_USERNAME" then "u"
  else if k = "SENDGRID_PASSWORD" then "p"
  else ""

/-- C7 witness on a concrete environment: both hypotheses discharged
independently on the same configuration. -/
theorem claim_C7_defaults_witness :
    ∃ cfg, readConfig sampleEnv = some cfg ∧ cfg.thresholdDays = 30 ∧
      ∃ e0 rest, cfg.emails = e0 :: rest ∧ cfg.fromAddr = e0 := by
  have h := claim_C7_defaults sampleEnv
  cases hc : readConfig sampleEnv with
  | none => exact absurd hc (by decide)
  | some cfg =>
    obtain ⟨e0, rest, h1, h2, _⟩ := h.2 (by decide) cfg hc
    exact ⟨cfg, rfl, h.1 (by decide) cfg hc, e0, rest, h1, h2⟩

/-- C8: if any mandatory setting (host list, recipient list, mailer
username or password) is absent or empty, the configuration phase of
`main` exits fatally and no check cycle — hence no network call or
mail — ever runs. -/
theorem claim_C8_fatal (env : String → String)
    (dial : String → Except String connState) (now : Int)
    (h : env "HOSTS" = "" ∨ env "EMAILS" = "" ∨
      env "SENDGRID_USERNAME" = "" ∨ env "SENDGRID_PASSWORD" = "") :
    mainConfigPhase env = none ∧ mainFirstCheck env dial now = none := by
  have hmain : mainConfigPhase env = none := by
    rcases h with h | h | h | h
    · have hr : readConfig env = none := by
        simp only [readConfig]
        cases hp : parseInt0 (envOptional env "THRESHOLD_DAYS" "30") with
        | none => rfl
        | some t =>
          cases he : envMandatory env "EMAILS" with
          | none => rfl
          | some es =>
            have hh : envMandatory env "HOSTS" = none := by
              unfold envMandatory
              rw [h]
              rfl
            rw [hh]
      simp only [mainConfigPhase, hr]
    · have hr : readConfig env = none := by
        simp only [readConfig]
        cases hp : parseInt0 (envOptional env "THRESHOLD_DAYS" "30") with
        | none => rfl
        | some t =>
          have he : envMandatory env "EMAILS" = none := by
            unfold envMandatory
            rw [h]
            rfl
          rw [he]
      simp only [mainConfigPhase, hr]
    · simp only [mainConfigPhase]
      cases hc : readConfig env with
      | none => rfl
      | some c =>
        have hs : readSendgridConfig env = none := by
          simp only [readSendgridConfig]
          have hu : envMandatory env "SENDGRID_USERNAME" = none := by
            unfold envMandatory
            rw [h]
            rfl
          rw [hu]
        rw [hs]
    · simp only [mainConfigPhase]
      cases hc : readConfig env with
      | none => rfl
      | some c =>
        have hs : readSendgridConfig env = none := by
          simp only [readSendgridConfig]
          cases hu : envMandatory env "SENDGRID_USERNAME" with
          | none => rfl
          | some u =>
            have hp : envMandatory env "SENDGRID_PASSWORD" = none := by
              unfold envMandatory
              rw [h]
              rfl
            rw [hp]
        rw [hs]
  refine ⟨hmain, ?_⟩
  simp only [mainFirstCheck, hmain]

/-- C8 witness: the empty environment exits before any check. -/
theorem claim_C8_fatal_witness :
    mainConfigPhase (fun _ => "") = none ∧
    mainFirstCheck (fun _ => "") (fun _ => .error "refused") 0 = none :=
  claim_C8_fatal (fun _ => "") (fun _ => .error "refused") 0 (Or.inl rfl)

/-- C10: `THRESHOLD_DAYS` is parsed with base inferred from its prefix
(`"030"` is octal 24, `"0x1f"` is hexadecimal 31), zero and negative
values are accepted, and a configuration parsed from `"030"` carries
`thresholdDays = 24`; with a non-positive threshold the threshold
instant is at or before `now`, so a reminder can fire only when some
snapshot expiration is already in the past. -/
theorem claim_C10_base0_and_nonpositive :
    parseInt0 "030" = some 24 ∧ parseInt0 "0x1f" = some 31 ∧
    parseInt0 "0" = some 0 ∧ parseInt0 "-7" = some (-7) ∧
    (∀ env : String → String, env "THRESHOLD_DAYS" = "030" →
      ∀ cfg, readConfig env = some cfg → cfg.thresholdDays = 24) ∧
    (∀ (c : config) (now : Int), c.thresholdDays ≤ 0 → thresholdInstant c now ≤ now) ∧
    (∀ (c : config) (sg : sendgridConfig) (dial : String → Except String connState)
        (now : Int) (m : mail), c.thresholdDays ≤ 0 → check c sg dial now = some m →
      ∃ p ∈ GetExpirationMap dial c, p.2 < now) := by
  refine ⟨by decide, by decide, by decide, by decide, ?_, ?_, ?_⟩
  · intro env h cfg hcfg
    have h1 : envOptional env "THRESHOLD_DAYS" "30" = "030" := by
      unfold envOptional
      rw [h]
      rfl
    have h2 : parseInt0 "030" = some 24 := by decide
    simp only [readConfig, h1, h2] at hcfg
    cases he : envMandatory env "EMAILS" with
    | none =>
      rw [he] at hcfg
      exact absurd hcfg (by simp)
    | some es =>
      rw [he] at hcfg
      cases hh : envMandatory env "HOSTS" with
      | none =>
        rw [hh] at hcfg
        exact absurd hcfg (by simp)
      | some hs =>
        rw [hh] at hcfg
        have := (Option.some.injEq _ _).mp hcfg
        rw [← this]
  · intro c now h
    have hadd := AddDate_days now c.thresholdDays
    unfold thresholdInstant
    rw [hadd]
    have : c.thresholdDays * 86400 ≤ 0 := by
      have := mul_le_mul_of_nonneg_right h (by omega : (0 : Int) ≤ 86400)
      simpa using this
    omega
  · intro c sg dial now m hle hchk
    have hfold := shouldRemind_foldl (thresholdInstant c now) (GetExpirationMap dial c) false
    simp only [check] at hchk
    rw [hfold, Bool.false_or] at hchk
    cases hany : (GetExpirationMap dial c).any
        (fun p => Before p.2 (thresholdInstant c now)) with
    | false =>
      rw [hany, if_neg (show ¬(false = true) by decide)] at hchk
      exact absurd hchk (by simp)
    | true =>
      rw [List.any_eq_true] at hany
      obtain ⟨p, hp, hbp⟩ := hany
      have hlt : p.2 < thresholdInstant c now := (Before_iff _ _).mp (by simpa using hbp)
      have hth : thresholdInstant c now ≤ now := by
        have hadd := AddDate_days now c.thresholdDays
        unfold thresholdInstant
        rw [hadd]
        have : c.thresholdDays * 86400 ≤ 0 := by
          have := mul_le_mul_of_nonneg_right hle (by omega : (0 : Int) ≤ 86400)
          simpa using this
        omega
      exact ⟨p, hp, lt_of_lt_of_le hlt hth⟩

/-- C10 witness: a zero-day threshold puts the threshold instant at
`now` itself. -/
theorem claim_C10_base0_and_nonpositive_witness :
    thresholdInstant { hosts := [], emails := ["e"], thresholdDays := 0, fromAddr := "e" }
      sampleNow ≤ sampleNow :=
  claim_C10_base0_and_nonpositive.2.2.2.2.2.1 _ sampleNow (by decide)
